import Mathlib

/-
Verification of the spreadsheet state core of react-sheet-component.

The embedding models JavaScript values by the inductive `JsValue` (cell
objects carry an identity tag so that reference equality is expressible),
and a JS array of arrays by `Matrix`, a list of rows whose entries are
`Option`s: `none` plays the role of an undefined / hole entry, and a row
that is absent in the JS array is represented by `[]` (for every operation
of src/src/matrix.js the two are observationally equal).
-/

namespace Sheet

/-- A JavaScript value as stored in the data matrix: strings, numbers,
booleans, null, or a cell object `\x7bvalue: ...\x7d`.  Cell objects carry a
numeric identity tag so that JS reference equality (`!==`) is modelled by
structural inequality of the tagged value. -/
inductive JsValue where
  | vStr (s : String)
  | vNum (n : Int)
  | vBool (b : Bool)
  | vNull
  | vCell (id : Nat) (value : JsValue)
deriving DecidableEq

/-- JS truthiness, `Boolean(x)`: empty string, 0, false and null are falsy;
objects are always truthy. -/
def truthy : JsValue → Bool
  | .vStr s => !s.isEmpty
  | .vNum n => decide (n ≠ 0)
  | .vBool b => b
  | .vNull => false
  | .vCell _ _ => true

/-- Truthiness of a possibly-undefined value (`undefined` is falsy). -/
def truthyO : Option JsValue → Bool
  | none => false
  | some v => truthy v

/-- `Matrix<T>` of src/src/matrix.js: an array of rows; `none` entries are
JS holes / explicitly stored `undefined`. -/
def Matrix (α : Type) : Type := List (List (Option α))

instance (α : Type) [DecidableEq α] : DecidableEq (Matrix α) := by
  unfold Matrix; infer_instance

/-- Read index `c` of a JS array (`row[c]`): `undefined` when out of range. -/
def rowGet {α : Type} : Nat → List (Option α) → Option α
  | _, [] => none
  | 0, e :: _ => e
  | n + 1, _ :: l => rowGet n l

/-- The assignment `row[c] = value` on a copy of the row: pads with holes
when `c` is beyond the current length. -/
def rowPlace {α : Type} : Nat → Option α → List (Option α) → List (Option α)
  | 0, e, [] => [e]
  | 0, e, _ :: l => e :: l
  | n + 1, e, [] => none :: rowPlace n e []
  | n + 1, e, x :: l => x :: rowPlace n e l

/-- `matrix[r]`, collapsed to `[]` when the row is missing (the two are
observationally equal for every matrix.js operation). -/
def matRowGetD {α : Type} : Nat → Matrix α → List (Option α)
  | _, [] => []
  | 0, row :: _ => row
  | n + 1, _ :: rows => matRowGetD n rows

/-- The assignment `matrix[r] = row` on a copy of the matrix: pads with
empty rows when `r` is beyond the current length. -/
def matPlaceRow {α : Type} : Nat → List (Option α) → Matrix α → Matrix α
  | 0, row, [] => [row]
  | 0, row, _ :: rows => row :: rows
  | n + 1, row, [] => [] :: matPlaceRow n row []
  | n + 1, row, r0 :: rows => r0 :: matPlaceRow n row rows

/-- matrix.js `get`: `matrix[row]` then `columns[column]`, `undefined`
when either is missing. -/
def get {α : Type} (row column : Nat) (matrix : Matrix α) : Option α :=
  rowGet column (matRowGetD row matrix)

/-- matrix.js `set`: copy the row (`matrix[row] ? [...matrix[row]] : []`),
assign the value at `column`, and place the new row back at `row`.  The
stored JS value ranges over `α` or `undefined`, hence `Option α`. -/
def set {α : Type} (row column : Nat) (value : Option α) (matrix : Matrix α) : Matrix α :=
  matPlaceRow row (rowPlace column value (matRowGetD row matrix)) matrix

/-- matrix.js `has`: `Boolean(matrix[row] && matrix[row][column])` — true
exactly when the entry is present and truthy. -/
def has (row column : Nat) (matrix : Matrix JsValue) : Bool :=
  truthyO (rowGet column (matRowGetD row matrix))

/-- `has` at possibly negative (Int) indices, as produced by navigation
arithmetic: a negative JS array index reads `undefined`. -/
def hasI (row column : Int) (matrix : Matrix JsValue) : Bool :=
  if 0 ≤ row ∧ 0 ≤ column then has row.toNat column.toNat matrix else false

/-- The `\x7bcolumns, rows\x7d` record returned by matrix.js `getSize`. -/
structure MSize where
  columns : Nat
  rows : Nat
deriving DecidableEq

/-- matrix.js `getSize`: number of rows, and the length of the first row
(0 when it is missing). -/
def getSize {α : Type} (matrix : Matrix α) : MSize :=
  ⟨(matRowGetD 0 matrix).length, matrix.length⟩

/-- A grid coordinate (row, column), as in src/src/types `Point`. -/
structure Point where
  row : Nat
  column : Nat
deriving DecidableEq

/-- The `view` / `edit` mode of the widget. -/
inductive Mode where
  | view
  | edit
deriving DecidableEq

/-- The store state fields the navigation and clipboard handlers touch
(src/src/ActiveCell.js `StoreState`).  `selected` and `copied` are point
sets, modelled as duplicate-free lists of points (spec §3 `PointSet`). -/
structure StoreState where
  data : Matrix JsValue
  selected : List Point
  copied : List Point
  active : Option Point
  mode : Mode
  cut : Bool
  hasPasted : Bool
deriving DecidableEq

/-- A partial state patch as returned by the key-down handlers; `none`
fields are left out of the patch (unistore shallow-merges patches). -/
structure Patch where
  data : Option (Matrix JsValue)
  active : Option Point
  selected : Option (List Point)
  mode : Option Mode
deriving DecidableEq

/-- Shallow merge of a patch into the state (unistore `setState`). -/
def applyPatch (st : StoreState) (p : Patch) : StoreState :=
  { st with
    data := p.data.getD st.data
    active := (p.active.map some).getD st.active
    selected := p.selected.getD st.selected
    mode := p.mode.getD st.mode }

/-- The patch `\x7bmode: "view"\x7d` returned by `go` when `Matrix.has` is
false at the moved-to point: active and selected are not in the patch. -/
def viewResetPatch : Patch :=
  ⟨none, none, none, some Mode.view⟩

/-- The patch returned by `go` when `Matrix.has` holds at the target:
active becomes the target and selected its singleton, mode `view`. -/
def movePatchOf (p : Point) : Patch :=
  ⟨none, some p, some [p], some Mode.view⟩

/-- Modelled from the spec: `PointSet.add` (point-set.js is not in src) —
adds the point unless already present, keeping the set duplicate-free. -/
def psAdd (s : List Point) (p : Point) : List Point :=
  if p ∈ s then s else s ++ [p]

/-- Modelled from the spec: `PointSet.getEdgeValue(set, field, -1)`
(point-set.js is not in src) — the minimum of `f` over the points present. -/
def psMinBy (f : Point → Nat) : List Point → Nat
  | [] => 0
  | p :: ps => ps.foldl (fun acc q => Nat.min acc (f q)) (f p)

/-- ActiveCell.js `cellFromValue`: wraps a raw value in a fresh cell
object `\x7bvalue\x7d` (the identity tag of the fresh object is irrelevant
to the handlers and fixed to 0). -/
def cellFromValue (v : JsValue) : JsValue :=
  JsValue.vCell 0 v

/-- Modelled from the spec: `updateData` (util.js is not in src) replaces
the cell stored at the point; the Backspace handler folds it over the
selected points with an empty-value cell. -/
def backspaceData (st : StoreState) : Matrix JsValue :=
  st.selected.foldl
    (fun acc p => set p.row p.column (some (cellFromValue (JsValue.vStr ""))) acc) st.data

/-- ActiveCell.js `go(rowDelta, columnDelta)`: `null` when there is no
active point; otherwise the move patch when `Matrix.has` holds at the
target, else the patch `\x7bmode: "view"\x7d`. -/
def go (rowDelta columnDelta : Int) (st : StoreState) : Option Patch :=
  match st.active with
  | none => none
  | some a =>
    if hasI ((a.row : Int) + rowDelta) ((a.column : Int) + columnDelta) st.data then
      some (movePatchOf ⟨((a.row : Int) + rowDelta).toNat, ((a.column : Int) + columnDelta).toNat⟩)
    else some viewResetPatch

/-- The keys of ActiveCell.js `keyDownHandlers` (view mode, no shift). -/
inductive Key where
  | arrowUp
  | arrowDown
  | arrowLeft
  | arrowRight
  | tab
  | enter
  | backspace
deriving DecidableEq

/-- ActiveCell.js `keyDownHandlers`: the view-mode key-down handler table. -/
def keyDownHandler : Key → StoreState → Option Patch
  | .arrowUp => go (-1) 0
  | .arrowDown => go 1 0
  | .arrowLeft => go 0 (-1)
  | .arrowRight => go 0 1
  | .tab => go 0 1
  | .enter => fun _ => some ⟨none, none, none, some Mode.edit⟩
  | .backspace => fun st =>
    match st.active with
    | none => none
    | some _ => some ⟨some (backspaceData st), none, none, none⟩

/-- The behaviour of `go` from an active point: when `Matrix.has` holds at
the translated target the patch activates and selects exactly the target;
when it does not, the patch only resets the mode to `view`, leaving the
active point and the selection of the merged state unchanged. -/
def GoSpec (st : StoreState) (a : Point) (dr dc : Int) : Prop :=
  (hasI ((a.row : Int) + dr) ((a.column : Int) + dc) st.data = true →
    go dr dc st = some (movePatchOf ⟨((a.row : Int) + dr).toNat, ((a.column : Int) + dc).toNat⟩) ∧
    applyPatch st (movePatchOf ⟨((a.row : Int) + dr).toNat, ((a.column : Int) + dc).toNat⟩) =
      { st with
        active := some ⟨((a.row : Int) + dr).toNat, ((a.column : Int) + dc).toNat⟩
        selected := [⟨((a.row : Int) + dr).toNat, ((a.column : Int) + dc).toNat⟩]
        mode := Mode.view }) ∧
  (hasI ((a.row : Int) + dr) ((a.column : Int) + dc) st.data = false →
    go dr dc st = some viewResetPatch ∧
    applyPatch st viewResetPatch = { st with mode := Mode.view })

/-- A 1×2 store state with both cells present and truthy, a two-point
selection, and the active point on the last column. -/
def c3State : StoreState :=
  { data := [[some (JsValue.vCell 0 (JsValue.vStr "x")), some (JsValue.vCell 1 (JsValue.vStr "y"))]]
    selected := [⟨0, 0⟩, ⟨0, 1⟩]
    copied := []
    active := some ⟨0, 1⟩
    mode := Mode.view
    cut := false
    hasPasted := false }

/-- A 1×1 store state with no active point, in view mode. -/
def c8State : StoreState :=
  { data := [[some (JsValue.vCell 0 (JsValue.vStr "x"))]]
    selected := []
    copied := []
    active := none
    mode := Mode.view
    cut := false
    hasPasted := false }

/-- A 2×2 store state with all four cells present and truthy, used to
exercise navigation from the origin. -/
def c3Witness : StoreState :=
  { data := [[some (JsValue.vCell 0 (JsValue.vStr "a")), some (JsValue.vCell 1 (JsValue.vStr "b"))],
             [some (JsValue.vCell 2 (JsValue.vStr "c")), some (JsValue.vCell 3 (JsValue.vStr "d"))]]
    selected := [⟨0, 0⟩]
    copied := []
    active := some ⟨0, 0⟩
    mode := Mode.view
    cut := false
    hasPasted := false }

/-- JS `Array.prototype.join` string conversion of one entry: `undefined`
and `null` become the empty string. -/
def entryToString : Option JsValue → String
  | none => ""
  | some JsValue.vNull => ""
  | some (JsValue.vStr s) => s
  | some (JsValue.vNum n) => toString n
  | some (JsValue.vBool b) => cond b "true" "false"
  | some (JsValue.vCell _ _) => "[object Object]"

/-- JS `Array.prototype.join` over already-converted strings. -/
def joinStrings (sep : String) : List String → String
  | [] => ""
  | [s] => s
  | s :: s2 :: rest => s ++ sep ++ joinStrings sep (s2 :: rest)

/-- matrix.js `join(matrix, horizontalSeparator, verticalSeparator)`; the
source defaults are `", "` and `"\n"` and `handleCopy` passes neither. -/
def join (m : Matrix JsValue) (hSep vSep : String) : String :=
  joinStrings vSep (m.map (fun row => joinStrings hSep (row.map entryToString)))

/-- matrix.js `filter`: keeps the truthy entries of each row and drops
rows with no surviving entries entirely. -/
def filter (f : JsValue → Bool) (m : Matrix JsValue) : Matrix JsValue :=
  (m.map (fun row => row.filterMap (fun e =>
    match e with
    | some v => if f v then some (some v) else none
    | none => none))).filter (fun row => !row.isEmpty)

/-- matrix.js `map`: maps present entries, keeping holes (the mapped
function may itself produce `undefined`). -/
def map (f : JsValue → Option JsValue) (m : Matrix JsValue) : Matrix JsValue :=
  m.map (fun row => row.map (fun e => e.bind f))

/-- The `getValue` collaborator of ActiveCell.js: `(\x7bdata\x7d) => data.value`
— the `value` property of a cell object, `undefined` on other values. -/
def getValueF : JsValue → Option JsValue
  | JsValue.vCell _ value => some value
  | _ => none

/-- Modelled from the spec: `PointSet.toMatrix(set, data)` (point-set.js is
not in src) — the sparse matrix containing only the selected cells, built
by folding `Matrix.set` of `Matrix.get` over the set. -/
def toMatrix (s : List Point) (data : Matrix JsValue) : Matrix JsValue :=
  s.foldl (fun acc p => set p.row p.column (get p.row p.column data) acc) ([] : Matrix JsValue)

/-- ActiveCell.js `handleCopy`, the clipboard text: sub-matrix of the
selection, falsy cells filtered out, cells resolved by `getValue`, joined
by matrix.js `join` with its default separators. -/
def handleCopyText (st : StoreState) : String :=
  join (map getValueF (filter truthy (toMatrix st.selected st.data))) ", " "\n"

/-- ActiveCell.js `handleCopy`, the store update:
`\x7bcopied: selected, cut: false, hasPasted: false\x7d`. -/
def handleCopyState (st : StoreState) : StoreState :=
  { st with copied := st.selected, cut := false, hasPasted := false }

/-- A 1×2 store state holding cells `\x7bvalue: a\x7d`, `\x7bvalue: b\x7d` with both
points selected. -/
def copyState (i j : Nat) (a b : String) : StoreState :=
  { data := [[some (JsValue.vCell i (JsValue.vStr a)), some (JsValue.vCell j (JsValue.vStr b))]]
    selected := [⟨0, 0⟩, ⟨0, 1⟩]
    copied := []
    active := some ⟨0, 0⟩
    mode := Mode.view
    cut := false
    hasPasted := false }

/-- A 1×2 store state whose first cell is missing, both points selected. -/
def copyMissState : StoreState :=
  { data := [[none, some (JsValue.vCell 1 (JsValue.vStr "B"))]]
    selected := [⟨0, 0⟩, ⟨0, 1⟩]
    copied := []
    active := some ⟨0, 0⟩
    mode := Mode.view
    cut := false
    hasPasted := false }

/-- A 1×1 store state holding a formula-valued cell, its point selected. -/
def copyFormulaState : StoreState :=
  { data := [[some (JsValue.vCell 0 (JsValue.vStr "=TRUE()"))]]
    selected := [⟨0, 0⟩]
    copied := []
    active := some ⟨0, 0⟩
    mode := Mode.view
    cut := false
    hasPasted := false }

/-- The translated paste target of a copied source point:
`source - minCorner(copied) + active` (ActiveCell.js `handlePaste`). -/
def pasteTarget (minR minC : Nat) (a p : Point) : Point :=
  ⟨p.row - minR + a.row, p.column - minC + a.column⟩

/-- One step of the `PointSet.reduce` fold inside `handlePaste`: skip the
source point when `Matrix.has` is false at its translated target in the
pre-paste data, otherwise write the source cell (read from the pre-paste
data) at the target and add the target to the accumulated selection. -/
def pasteStep (prevData : Matrix JsValue) (minR minC : Nat) (a : Point)
    (acc : Matrix JsValue × List Point) (p : Point) : Matrix JsValue × List Point :=
  let t := pasteTarget minR minC a p
  if has t.row t.column prevData then
    (set t.row t.column (get p.row p.column prevData) acc.1, psAdd acc.2 t)
  else acc

/-- ActiveCell.js `handlePaste`: anchor offsets from the minimal corner of
the copied set, fold over the copied points, then the store update
`\x7bdata, selected, cut: false, hasPasted: true, mode: "view"\x7d`.  A missing
active point is a JS `TypeError`, modelled as `none`. -/
def handlePaste (st : StoreState) : Option StoreState :=
  match st.active with
  | none => none
  | some a =>
    let minR := psMinBy (fun q => q.row) st.copied
    let minC := psMinBy (fun q => q.column) st.copied
    let res := st.copied.foldl (pasteStep st.data minR minC a) (st.data, [])
    some { st with
      data := res.1
      selected := res.2
      cut := false
      hasPasted := true
      mode := Mode.view }

/-- The paste target of a source point under the state's own copied-set
minimal corner and the given active point. -/
def pasteAnchor (st : StoreState) (a p : Point) : Point :=
  pasteTarget (psMinBy (fun q => q.row) st.copied) (psMinBy (fun q => q.column) st.copied) a p

/-- The behaviour of `handlePaste` from a state with active point `a`:
every copied source whose translated target satisfies `Matrix.has` in the
pre-paste data receives the source cell; points where `has` is false are
left untouched (in particular the matrix never grows, its size is
preserved); the resulting selection is exactly the set of translated
targets actually written; and the flags become
`hasPasted = true, cut = false, mode = "view"`. -/
def PasteSpec (st : StoreState) (a : Point) : Prop :=
  ∃ st2, handlePaste st = some st2 ∧
    (∀ p ∈ st.copied,
      has (pasteAnchor st a p).row (pasteAnchor st a p).column st.data = true →
      get (pasteAnchor st a p).row (pasteAnchor st a p).column st2.data =
        get p.row p.column st.data) ∧
    (∀ q : Point, has q.row q.column st.data = false →
      get q.row q.column st2.data = get q.row q.column st.data) ∧
    getSize st2.data = getSize st.data ∧
    (∀ q : Point, q ∈ st2.selected ↔
      ∃ p, p ∈ st.copied ∧ pasteAnchor st a p = q ∧ has q.row q.column st.data = true) ∧
    st2.hasPasted = true ∧ st2.cut = false ∧ st2.mode = Mode.view ∧ st2.active = st.active

/-- A 2×2 store state whose entry (0,1) is a hole (in bounds of the 2×2
size but with `has` false), with (1,0) copied and active (0,1), so that
the translated paste target is exactly the in-bounds hole (0,1). -/
def pasteHoleState : StoreState :=
  { data := [[some (JsValue.vCell 0 (JsValue.vStr "x")), none],
             [some (JsValue.vCell 1 (JsValue.vStr "y")), some (JsValue.vCell 2 (JsValue.vStr "z"))]]
    selected := []
    copied := [⟨1, 0⟩]
    active := some ⟨0, 1⟩
    mode := Mode.view
    cut := false
    hasPasted := false }

/-- A 2×2 store state with all cells present, the first row copied and the
active point at (1,0) — the paste scenario of the spec. -/
def pasteWitnessState : StoreState :=
  { data := [[some (JsValue.vCell 0 (JsValue.vStr "A")), some (JsValue.vCell 1 (JsValue.vStr "B"))],
             [some (JsValue.vCell 2 (JsValue.vStr "C")), some (JsValue.vCell 3 (JsValue.vStr "D"))]]
    selected := []
    copied := [⟨0, 0⟩, ⟨0, 1⟩]
    active := some ⟨1, 0⟩
    mode := Mode.view
    cut := false
    hasPasted := false }

/-- A point with Int coordinates, as the range helpers of matrix.js
manipulate (the inclusive-range adjustment can step outside ℕ). -/
structure PtI where
  row : Int
  column : Int
deriving DecidableEq

/-- util.js `flatMap` (modelled from the spec: util.js is not in src):
concatenation of the images. -/
def flatMapL {α β : Type} : List α → (α → List β) → List β
  | [], _ => []
  | a :: l, f => f a ++ flatMapL l f

/-- Modelled from the spec: util.js `range(end, start)` with the default
step 1 (util.js is not in src; behaviour fixed by util.test.ts): counts up
from `start` excluding `end`, and counts down when `start` exceeds `end`. -/
def rangeUtil (endv start : Int) : List Int :=
  if start ≤ endv then (List.range (endv - start).toNat).map (fun i => start + Int.ofNat i)
  else (List.range (start - endv).toNat).map (fun i => start - Int.ofNat i)

/-- matrix.js `range(endPoint, startPoint)`: row-major points of the
half-open rectangle, direction-aware; an axis with equal coordinates
contributes the single start coordinate when the other axis moves. -/
def range (endP startP : PtI) : List PtI :=
  let columnsRange :=
    if startP.column ≠ endP.column then rangeUtil endP.column startP.column
    else if startP.row ≠ endP.row then [startP.column]
    else []
  let rowsRange :=
    if startP.row ≠ endP.row then rangeUtil endP.row startP.row
    else if startP.column ≠ endP.column then [startP.row]
    else []
  flatMapL rowsRange (fun row => columnsRange.map (fun column => PtI.mk row column))

/-- matrix.js `inclusiveRange`: `range` with the end corner pushed one
step further along each moving axis. -/
def inclusiveRange (endP startP : PtI) : List PtI :=
  range
    ⟨endP.row + (endP.row - startP.row).sign, endP.column + (endP.column - startP.column).sign⟩
    startP

/-- The inclusive directed integer interval from `s` to `e`. -/
def inclusiveSeq (s e : Int) : List Int :=
  if s ≤ e then (List.range (e - s + 1).toNat).map (fun i => s + Int.ofNat i)
  else (List.range (s - e + 1).toNat).map (fun i => s - Int.ofNat i)

/-- The points of the rectangle spanned by the two corners, enumerated
row-major from the start corner towards the end corner, both included. -/
def rectPoints (s e : PtI) : List PtI :=
  flatMapL (inclusiveSeq s.row e.row)
    (fun row => (inclusiveSeq s.column e.column).map (fun column => PtI.mk row column))

/-- A cell as seen by the formula helpers: a record with a raw `value`. -/
structure CellB where
  value : JsValue
deriving DecidableEq

/-- Modelled from the spec: the reserved formula marker prefixed to a raw
cell value (util.ts is not in src; the marker is `=` per spec §6 and the
scenario value `"=TRUE()"`). -/
def formulaValueMarker : String := "="

/-- Modelled from the spec: `isFormulaCell` (util.ts is not in src) — the
cell's raw value is a string starting with the reserved marker (the
single character `=`, matched on the head of the string). -/
def isFormulaCell (cell : CellB) : Bool :=
  match cell.value with
  | JsValue.vStr s =>
    match s.data with
    | [] => false
    | ch :: _ => ch == Char.ofNat 61
  | _ => false

/-- Modelled from the spec: `extractFormula` (util.ts is not in src) —
the raw value with exactly the marker removed. -/
def extractFormula (value : String) : String :=
  value.drop formulaValueMarker.length

/-- The string content of the cell's raw value (formula cells always hold
strings, so the other branches are unreachable for them). -/
def cellValueString (c : CellB) : String :=
  match c.value with
  | JsValue.vStr s => s
  | _ => ""

/-- The `\x7bresult, error\x7d` record returned by the formula-parser
collaborator's `parse`. -/
structure ParseOutcome where
  result : JsValue
  error : Option String

/-- The formula-parser collaborator: one `parse` method from formula text
to a `\x7bresult, error\x7d` record. -/
def FormulaFn : Type := String → ParseOutcome

/-- Modelled from the spec: `getFormulaComputedValue` (util.ts is not in
src) — delegate to `parse` on the extracted formula text and return the
error when it is non-null, the result otherwise. -/
def getFormulaComputedValue (c : CellB) (fp : FormulaFn) : JsValue :=
  let out := fp (extractFormula (cellValueString c))
  match out.error with
  | some e => JsValue.vStr e
  | none => out.result

/-- Modelled from the spec: `getComputedValue` (util.ts is not in src) —
null for an undefined cell, the raw value for a non-formula cell, and the
delegated formula value otherwise. -/
def getComputedValue (cell : Option CellB) (fp : FormulaFn) : JsValue :=
  match cell with
  | none => JsValue.vNull
  | some c => if isFormulaCell c then getFormulaComputedValue c fp else c.value

/-- The formula cell of the spec scenario, raw value `"=TRUE()"`. -/
def exampleFormulaCell : CellB :=
  ⟨JsValue.vStr "=TRUE()"⟩

/-- A parser collaborator answering `\x7bresult: true, error: null\x7d`. -/
def exampleTrueFn : FormulaFn :=
  fun _ => ⟨JsValue.vBool true, none⟩

/-- The props of the ActiveCell component that `componentDidUpdate` reads:
the mode and the cell (possibly undefined, possibly null). -/
structure AcProps where
  mode : Mode
  cell : Option JsValue
deriving DecidableEq

/-- The local component state: the snapshot taken on entering edit mode. -/
structure AcState where
  cellBeforeUpdate : Option JsValue
deriving DecidableEq

/-- One emitted commit record `\x7bprevCell, nextCell\x7d`. -/
structure CommitRecord where
  prevCell : Option JsValue
  nextCell : Option JsValue
deriving DecidableEq

/-- The guard `cell || cell === undefined` of `componentDidUpdate`:
truthy, or exactly `undefined` (so an explicit `null` cell fails it). -/
def truthyOrUndef : Option JsValue → Bool
  | none => true
  | some v => truthy v

/-- ActiveCell.js `componentDidUpdate`: on a view→edit transition snapshot
the previous cell; on an update leaving edit mode with a truthy previous
cell that differs by reference from the snapshot, emit the single commit
record; returns the new component state and the emitted records. -/
def componentDidUpdate (prevProps props : AcProps) (st : AcState) :
    AcState × List CommitRecord :=
  if truthyOrUndef props.cell = true then
    if prevProps.mode = Mode.view ∧ props.mode = Mode.edit then
      (⟨prevProps.cell⟩, [])
    else if prevProps.mode = Mode.edit ∧ props.mode ≠ prevProps.mode ∧
        truthyO prevProps.cell = true ∧ prevProps.cell ≠ st.cellBeforeUpdate then
      (st, [⟨st.cellBeforeUpdate, prevProps.cell⟩])
    else (st, [])
  else (st, [])

/-- Modelled from the spec: the commit store action (actions.js is not in
src) pairs the emitted records with the dependent cell points the
host-supplied `getBindingsForCell` collaborator yields for the committed
cells. -/
def commitWithBindings (g : Option JsValue → List Point) (records : List CommitRecord) :
    List CommitRecord × List Point :=
  (records, flatMapL records (fun r => g r.nextCell))

/-- The behaviour of an update step that leaves edit mode: the commit
`\x7bprevCell: snapshot, nextCell: previous cell\x7d` is emitted exactly when the
current cell is truthy-or-undefined, the previous cell is truthy, and the
previous cell differs by reference from the snapshot; and an emitted
record is paired with the collaborator's bindings for the committed cell. -/
def CommitSpec (prevProps props : AcProps) (st : AcState)
    (g : Option JsValue → List Point) : Prop :=
  ((componentDidUpdate prevProps props st).2 =
    if truthyOrUndef props.cell = true ∧ truthyO prevProps.cell = true ∧
        prevProps.cell ≠ st.cellBeforeUpdate
    then [⟨st.cellBeforeUpdate, prevProps.cell⟩] else []) ∧
  commitWithBindings g [⟨st.cellBeforeUpdate, prevProps.cell⟩] =
    ([⟨st.cellBeforeUpdate, prevProps.cell⟩], g prevProps.cell)

/-- The resources registered by `componentDidMount` of the wrapper: the
store subscription and the three document-level clipboard listeners. -/
inductive ListenerTag where
  | copyListener
  | cutListener
  | pasteListener
  | storeSubscription
deriving DecidableEq

/-- `componentDidMount`: subscribes to the store and adds the document
copy, cut and paste listeners. -/
def componentDidMountListeners : List ListenerTag :=
  [ListenerTag.storeSubscription, ListenerTag.copyListener,
   ListenerTag.cutListener, ListenerTag.pasteListener]

/-- `componentWillUnmount`: calls only `this.unsubscribe()` — it releases
the store subscription and nothing else. -/
def componentWillUnmountRelease (registered : List ListenerTag) : List ListenerTag :=
  registered.filter (fun l => l ≠ ListenerTag.storeSubscription)

-- Basic read-after-write lemmas for the row and matrix levels.

theorem rowGet_rowPlace_self {α : Type} (c : Nat) (v : Option α) (l : List (Option α)) :
    rowGet c (rowPlace c v l) = v := by
  induction c generalizing l with
  | zero => cases l <;> rfl
  | succ n ih => cases l with
    | nil => simpa [rowPlace, rowGet] using ih []
    | cons x xs => simpa [rowPlace, rowGet] using ih xs

theorem rowGet_rowPlace_ne {α : Type} (c c' : Nat) (h : c ≠ c') (v : Option α)
    (l : List (Option α)) : rowGet c' (rowPlace c v l) = rowGet c' l := by
  induction c generalizing c' l with
  | zero =>
    cases l with
    | nil =>
      cases c' with
      | zero => exact absurd rfl h
      | succ k => cases k <;> rfl
    | cons x xs =>
      cases c' with
      | zero => exact absurd rfl h
      | succ k => rfl
  | succ n ih =>
    cases l with
    | nil =>
      cases c' with
      | zero => rfl
      | succ k =>
        have hk : n ≠ k := by omega
        simpa [rowPlace, rowGet] using ih k hk []
    | cons x xs =>
      cases c' with
      | zero => rfl
      | succ k =>
        have hk : n ≠ k := by omega
        simpa [rowPlace, rowGet] using ih k hk xs

theorem matRowGetD_matPlaceRow_self {α : Type} (r : Nat) (row : List (Option α))
    (m : Matrix α) : matRowGetD r (matPlaceRow r row m) = row := by
  induction r generalizing m with
  | zero => cases m <;> rfl
  | succ n ih => cases m with
    | nil => simpa [matPlaceRow, matRowGetD] using ih []
    | cons r0 rows => simpa [matPlaceRow, matRowGetD] using ih rows

theorem matRowGetD_matPlaceRow_ne {α : Type} (r r' : Nat) (h : r ≠ r')
    (row : List (Option α)) (m : Matrix α) :
    matRowGetD r' (matPlaceRow r row m) = matRowGetD r' m := by
  induction r generalizing r' m with
  | zero =>
    cases m with
    | nil =>
      cases r' with
      | zero => exact absurd rfl h
      | succ k => cases k <;> rfl
    | cons x xs =>
      cases r' with
      | zero => exact absurd rfl h
      | succ k => rfl
  | succ n ih =>
    cases m with
    | nil =>
      cases r' with
      | zero => rfl
      | succ k =>
        have hk : n ≠ k := by omega
        simpa [matPlaceRow, matRowGetD] using ih k hk []
    | cons x xs =>
      cases r' with
      | zero => rfl
      | succ k =>
        have hk : n ≠ k := by omega
        simpa [matPlaceRow, matRowGetD] using ih k hk xs

theorem get_set_self {α : Type} (r c : Nat) (v : Option α) (m : Matrix α) :
    get r c (set r c v m) = v := by
  unfold get set
  rw [matRowGetD_matPlaceRow_self, rowGet_rowPlace_self]

theorem get_set_ne {α : Type} (r c r' c' : Nat) (h : r ≠ r' ∨ c ≠ c') (v : Option α)
    (m : Matrix α) : get r' c' (set r c v m) = get r' c' m := by
  unfold get set
  rcases h with h | h
  · rw [matRowGetD_matPlaceRow_ne r r' h]
  · by_cases hr : r = r'
    · subst hr
      rw [matRowGetD_matPlaceRow_self, rowGet_rowPlace_ne c c' h]
    · rw [matRowGetD_matPlaceRow_ne r r' hr]

theorem rowGet_ne_none_lt {α : Type} (c : Nat) (l : List (Option α)) (h : rowGet c l ≠ none) :
    c < l.length := by
  induction c generalizing l with
  | zero => cases l with
    | nil => exact absurd rfl h
    | cons x xs => simp
  | succ n ih => cases l with
    | nil => exact absurd rfl h
    | cons x xs =>
      have := ih xs (by simpa [rowGet] using h)
      simpa using Nat.succ_lt_succ this

theorem matRowGetD_of_ge {α : Type} (r : Nat) (m : Matrix α) (h : m.length ≤ r) :
    matRowGetD r m = [] := by
  induction r generalizing m with
  | zero => cases m with
    | nil => rfl
    | cons x xs => simp at h
  | succ n ih => cases m with
    | nil => rfl
    | cons x xs => exact ih xs (by simpa using h)

theorem has_row_lt (r c : Nat) (m : Matrix JsValue) (h : has r c m = true) : r < m.length := by
  by_contra hge
  rw [has, matRowGetD_of_ge r m (by omega)] at h
  simp [rowGet, truthyO] at h

theorem has_col_lt (r c : Nat) (m : Matrix JsValue) (h : has r c m = true) :
    c < (matRowGetD r m).length := by
  apply rowGet_ne_none_lt
  intro hnone
  rw [has, hnone] at h
  simp [truthyO] at h

theorem rowPlace_length_of_lt {α : Type} (c : Nat) (v : Option α) (l : List (Option α))
    (h : c < l.length) : (rowPlace c v l).length = l.length := by
  induction c generalizing l with
  | zero => cases l with
    | nil => simp at h
    | cons x xs => rfl
  | succ n ih => cases l with
    | nil => simp at h
    | cons x xs =>
      have := ih xs (by simpa using h)
      simpa [rowPlace] using this

theorem matPlaceRow_length_of_lt {α : Type} (r : Nat) (row : List (Option α)) (m : Matrix α)
    (h : r < m.length) : (matPlaceRow r row m).length = m.length := by
  induction r generalizing m with
  | zero => cases m with
    | nil => simp at h
    | cons x xs => rfl
  | succ n ih => cases m with
    | nil => simp at h
    | cons x xs =>
      have := ih xs (by simpa using h)
      simpa [matPlaceRow] using this

theorem set_length {α : Type} (r c : Nat) (v : Option α) (m : Matrix α) (h : r < m.length) :
    (set r c v m).length = m.length :=
  matPlaceRow_length_of_lt r _ m h

theorem set_rowlen {α : Type} (r c : Nat) (v : Option α) (m : Matrix α) (hr : r < m.length)
    (hc : c < (matRowGetD r m).length) (r0 : Nat) :
    (matRowGetD r0 (set r c v m)).length = (matRowGetD r0 m).length := by
  by_cases h : r = r0
  · subst h
    rw [set, matRowGetD_matPlaceRow_self, rowPlace_length_of_lt c v _ hc]
  · rw [set, matRowGetD_matPlaceRow_ne r r0 h]

/-- C4: for every matrix, value and all non-negative indices — including
indices beyond the current matrix size — `set` succeeds (totally, creating
intervening rows as needed) and `get` at the written position returns the
written value; the original matrix is untouched, `set` building a new one. -/
theorem get_set_roundtrip {α : Type} (m : Matrix α) (r c : Nat) (v : α) :
    get r c (set r c (some v) m) = some v :=
  get_set_self r c (some v) m

/-- C3 (amended): from a state with an active point, `go` moves active and
selection to the target exactly when `Matrix.has` holds at the target
(truthiness-based, not purely geometric bounds); otherwise the patch is
only `\x7bmode: "view"\x7d`, so the merged state keeps both the previous
active point and the previous selection unchanged. -/
theorem go_amended (st : StoreState) (a : Point) (dr dc : Int) (hA : st.active = some a) :
    GoSpec st a dr dc := by
  constructor
  · intro h
    exact ⟨by simp [go, hA, h], rfl⟩
  · intro h
    exact ⟨by simp [go, hA, h], rfl⟩

/-- C3 counterexample: on a 1×2 grid with active (0,1) and the two-point
selection \x7b(0,0),(0,1)\x7d, ArrowRight moves out of bounds; the claim says
the selection is reset to the singleton of the active point, but the code
returns only `\x7bmode: "view"\x7d` and the merged selection is unchanged. -/
theorem go_selection_reset_claim_false :
    go 0 1 c3State = some viewResetPatch ∧
    c3State.active = some ⟨0, 1⟩ ∧
    (applyPatch c3State viewResetPatch).selected = [⟨0, 0⟩, ⟨0, 1⟩] ∧
    (applyPatch c3State viewResetPatch).selected ≠ [(⟨0, 1⟩ : Point)] := by
  decide

/-- C3 witness: the amended statement applied on a concrete 2×2 grid with
active (0,0) and an ArrowRight move. -/
theorem go_amended_witness :
    c3Witness.active = some ⟨0, 0⟩ ∧ GoSpec c3Witness ⟨0, 0⟩ 0 1 :=
  ⟨rfl, go_amended c3Witness ⟨0, 0⟩ 0 1 rfl⟩

/-- C8: with no active point, Enter is not a no-op — the handler returns
the patch `\x7bmode: "edit"\x7d` and the merged state differs from the
original — while the arrow, Tab and Backspace handlers do return `null`.
This evaluates the code at the failing input of the claim. -/
theorem enter_without_active_changes_state :
    c8State.active = none ∧ c8State.mode = Mode.view ∧
    keyDownHandler Key.enter c8State = some ⟨none, none, none, some Mode.edit⟩ ∧
    (applyPatch c8State ⟨none, none, none, some Mode.edit⟩).mode = Mode.edit ∧
    applyPatch c8State ⟨none, none, none, some Mode.edit⟩ ≠ c8State ∧
    keyDownHandler Key.arrowUp c8State = none ∧
    keyDownHandler Key.arrowDown c8State = none ∧
    keyDownHandler Key.arrowLeft c8State = none ∧
    keyDownHandler Key.arrowRight c8State = none ∧
    keyDownHandler Key.tab c8State = none ∧
    keyDownHandler Key.backspace c8State = none := by
  decide

/-- C10: `has` is true iff the stored entry exists and is truthy; setting
a falsy value makes `has` false at that point even though `get` returns
the value; and `go` treats a target with false `has` exactly like an
out-of-bounds target, answering only the mode-reset patch. -/
theorem has_truthiness_contract (r c : Nat) (m : Matrix JsValue) (v : JsValue) :
    (has r c m = true ↔ ∃ w, get r c m = some w ∧ truthy w = true) ∧
    (truthy v = false →
      has r c (set r c (some v) m) = false ∧ get r c (set r c (some v) m) = some v) ∧
    (∀ st : StoreState, ∀ a : Point, ∀ dr dc : Int, st.active = some a →
      hasI ((a.row : Int) + dr) ((a.column : Int) + dc) st.data = false →
      go dr dc st = some viewResetPatch) := by
  refine ⟨?_, ?_, ?_⟩
  · unfold has get truthyO
    cases hw : rowGet c (matRowGetD r m) with
    | none => simp
    | some w => simp
  · intro hv
    constructor
    · unfold has set
      rw [matRowGetD_matPlaceRow_self, rowGet_rowPlace_self]
      simpa [truthyO] using hv
    · exact get_set_self r c (some v) m
  · intro st a dr dc hA h
    simp [go, hA, h]

/-- C10 witness: the contract applied at the concrete falsy value `""`
written into the empty matrix at (0,0). -/
theorem has_truthiness_contract_witness :
    truthy (JsValue.vStr "") = false ∧
    (has 0 0 (set 0 0 (some (JsValue.vStr "")) ([] : Matrix JsValue)) = false ∧
      get 0 0 (set 0 0 (some (JsValue.vStr "")) ([] : Matrix JsValue)) =
        some (JsValue.vStr "")) :=
  ⟨by decide, (has_truthiness_contract 0 0 ([] : Matrix JsValue) (JsValue.vStr "")).2.1 (by decide)⟩

/-- C2 (amended): copying a selected 1×2 row of present cells `\x7bvalue: a\x7d`,
`\x7bvalue: b\x7d` produces the clipboard text joined by matrix.js `join`'s
default `", "` separator — `a ++ ", " ++ b` for any cell identities and any
raw string values — and the store update records `copied = selected`,
`cut = false`, `hasPasted = false`. -/
theorem handleCopy_amended (i j : Nat) (a b : String) :
    handleCopyText (copyState i j a b) = a ++ ", " ++ b ∧
    handleCopyState (copyState i j a b) =
      { copyState i j a b with copied := [⟨0, 0⟩, ⟨0, 1⟩], cut := false, hasPasted := false } :=
  ⟨rfl, rfl⟩

/-- C2 counterexample: copying (0,0)="A", (0,1)="B" writes "A, B" — not
the claimed "A\tB"; a missing selected cell is dropped (the row shifts to
"B", no empty-string placeholder); and a formula cell is copied as its raw
marker text, not its computed value. -/
theorem handleCopy_tab_claim_false :
    handleCopyText (copyState 0 1 "A" "B") = "A, B" ∧
    "A, B" ≠ "A\tB" ∧
    handleCopyText copyMissState = "B" ∧
    "B" ≠ "\tB" ∧
    handleCopyText copyFormulaState = "=TRUE()" := by
  refine ⟨rfl, by decide, rfl, by decide, rfl⟩

theorem point_ne_cases (p q : Point) (h : p ≠ q) : p.row ≠ q.row ∨ p.column ≠ q.column := by
  by_cases hr : p.row = q.row
  · by_cases hc : p.column = q.column
    · exact absurd (by cases p; cases q; simp_all) h
    · exact Or.inr hc
  · exact Or.inl hr

theorem foldlMin_le_init (f : Point → Nat) (l : List Point) (acc : Nat) :
    l.foldl (fun acc q => Nat.min acc (f q)) acc ≤ acc := by
  induction l generalizing acc with
  | nil => exact le_rfl
  | cons y ys ih =>
    calc ys.foldl (fun acc q => Nat.min acc (f q)) (Nat.min acc (f y)) ≤ Nat.min acc (f y) :=
          ih (Nat.min acc (f y))
      _ ≤ acc := Nat.min_le_left _ _

theorem foldlMin_le_mem (f : Point → Nat) (l : List Point) (acc : Nat) (q : Point)
    (hq : q ∈ l) : l.foldl (fun acc q => Nat.min acc (f q)) acc ≤ f q := by
  induction l generalizing acc with
  | nil => simp at hq
  | cons y ys ih =>
    rcases List.mem_cons.mp hq with h | h
    · subst h
      calc ys.foldl (fun acc p => Nat.min acc (f p)) (Nat.min acc (f q)) ≤ Nat.min acc (f q) :=
            foldlMin_le_init f ys _
        _ ≤ f q := Nat.min_le_right _ _
    · exact ih _ h

theorem psMinBy_le (f : Point → Nat) (s : List Point) (p : Point) (hp : p ∈ s) :
    psMinBy f s ≤ f p := by
  cases s with
  | nil => simp at hp
  | cons x xs =>
    rcases List.mem_cons.mp hp with h | h
    · subst h
      exact foldlMin_le_init f xs (f p)
    · exact foldlMin_le_mem f xs (f x) p h

theorem pasteTarget_inj (minR minC : Nat) (a p q : Point)
    (hp1 : minR ≤ p.row) (hp2 : minC ≤ p.column) (hq1 : minR ≤ q.row) (hq2 : minC ≤ q.column)
    (h : pasteTarget minR minC a p = pasteTarget minR minC a q) : p = q := by
  cases p
  cases q
  simp only [pasteTarget, Point.mk.injEq] at h ⊢
  simp only [] at hp1 hp2 hq1 hq2
  omega

theorem psAdd_mem (s : List Point) (t q : Point) : q ∈ psAdd s t ↔ q ∈ s ∨ q = t := by
  unfold psAdd
  by_cases h : t ∈ s
  · rw [if_pos h]
    constructor
    · exact Or.inl
    · rintro (hq | hq)
      · exact hq
      · exact hq ▸ h
  · rw [if_neg h]
    simp

theorem pasteFold_get_away (prevData : Matrix JsValue) (minR minC : Nat) (a : Point)
    (l : List Point) (acc : Matrix JsValue × List Point) (q : Point)
    (h : ∀ p ∈ l,
      has (pasteTarget minR minC a p).row (pasteTarget minR minC a p).column prevData = false ∨
      pasteTarget minR minC a p ≠ q) :
    get q.row q.column (l.foldl (pasteStep prevData minR minC a) acc).1 =
      get q.row q.column acc.1 := by
  induction l generalizing acc with
  | nil => rfl
  | cons p l ih =>
    rw [List.foldl_cons]
    by_cases hh : has (pasteTarget minR minC a p).row (pasteTarget minR minC a p).column prevData
    · have hne : pasteTarget minR minC a p ≠ q := by
        rcases h p (List.mem_cons_self _ _) with h1 | h1
        · rw [hh] at h1
          exact absurd h1 (by simp)
        · exact h1
      rw [ih _ (fun p2 hp2 => h p2 (List.mem_cons_of_mem p hp2))]
      show get q.row q.column (pasteStep prevData minR minC a acc p).1 = get q.row q.column acc.1
      rw [pasteStep, if_pos hh]
      exact get_set_ne _ _ _ _ (by
        rcases point_ne_cases _ _ hne with h2 | h2
        · exact Or.inl h2
        · exact Or.inr h2) _ acc.1
    · rw [ih _ (fun p2 hp2 => h p2 (List.mem_cons_of_mem p hp2))]
      show get q.row q.column (pasteStep prevData minR minC a acc p).1 = get q.row q.column acc.1
      rw [pasteStep, if_neg hh]

theorem pasteFold_target (prevData : Matrix JsValue) (minR minC : Nat) (a : Point)
    (l : List Point) (acc : Matrix JsValue × List Point) (p0 : Point)
    (hmin : ∀ p ∈ l, minR ≤ p.row ∧ minC ≤ p.column) (hp0 : p0 ∈ l)
    (hh : has (pasteTarget minR minC a p0).row (pasteTarget minR minC a p0).column prevData
      = true) :
    get (pasteTarget minR minC a p0).row (pasteTarget minR minC a p0).column
      (l.foldl (pasteStep prevData minR minC a) acc).1 = get p0.row p0.column prevData := by
  induction l generalizing acc with
  | nil => simp at hp0
  | cons p l ih =>
    rw [List.foldl_cons]
    by_cases hmem : p0 ∈ l
    · exact ih _ (fun p2 hp2 => hmin p2 (List.mem_cons_of_mem p hp2)) hmem
    · have hp : p0 = p := by
        rcases List.mem_cons.mp hp0 with h | h
        · exact h
        · exact absurd h hmem
      subst hp
      have haway : ∀ p2 ∈ l,
          has (pasteTarget minR minC a p2).row (pasteTarget minR minC a p2).column prevData
            = false ∨
          pasteTarget minR minC a p2 ≠ pasteTarget minR minC a p0 := by
        intro p2 hp2
        right
        intro heq
        apply hmem
        have h2 := hmin p2 (List.mem_cons_of_mem p0 hp2)
        have h0 := hmin p0 (List.mem_cons_self _ _)
        rw [pasteTarget_inj minR minC a p2 p0 h2.1 h2.2 h0.1 h0.2 heq] at hp2
        exact hp2
      rw [pasteFold_get_away prevData minR minC a l _ _ haway]
      show get (pasteTarget minR minC a p0).row (pasteTarget minR minC a p0).column
        (pasteStep prevData minR minC a acc p0).1 = get p0.row p0.column prevData
      rw [pasteStep, if_pos hh]
      exact get_set_self _ _ _ _

theorem pasteFold_selected (prevData : Matrix JsValue) (minR minC : Nat) (a : Point)
    (l : List Point) (acc : Matrix JsValue × List Point) (q : Point) :
    q ∈ (l.foldl (pasteStep prevData minR minC a) acc).2 ↔
      q ∈ acc.2 ∨ ∃ p, p ∈ l ∧ pasteTarget minR minC a p = q ∧
        has q.row q.column prevData = true := by
  induction l generalizing acc with
  | nil => simp
  | cons p l ih =>
    rw [List.foldl_cons, ih]
    by_cases hh : has (pasteTarget minR minC a p).row (pasteTarget minR minC a p).column prevData
    · have hstep : (pasteStep prevData minR minC a acc p).2 = psAdd acc.2 (pasteTarget minR minC a p) := by
        rw [pasteStep, if_pos hh]
      rw [hstep]
      constructor
      · rintro (hq | ⟨p2, hp2, ht2, hhq⟩)
        · rcases (psAdd_mem _ _ _).mp hq with h2 | h2
          · exact Or.inl h2
          · refine Or.inr ⟨p, List.mem_cons_self _ _, h2.symm, ?_⟩
            rw [← h2] at hh
            exact hh
        · exact Or.inr ⟨p2, List.mem_cons_of_mem p hp2, ht2, hhq⟩
      · rintro (hq | ⟨p2, hp2, ht2, hhq⟩)
        · exact Or.inl ((psAdd_mem _ _ _).mpr (Or.inl hq))
        · rcases List.mem_cons.mp hp2 with h2 | h2
          · subst h2
            exact Or.inl ((psAdd_mem _ _ _).mpr (Or.inr ht2.symm))
          · exact Or.inr ⟨p2, h2, ht2, hhq⟩
    · have hstep : pasteStep prevData minR minC a acc p = acc := by
        rw [pasteStep, if_neg hh]
      rw [hstep]
      constructor
      · rintro (hq | ⟨p2, hp2, ht2, hhq⟩)
        · exact Or.inl hq
        · exact Or.inr ⟨p2, List.mem_cons_of_mem p hp2, ht2, hhq⟩
      · rintro (hq | ⟨p2, hp2, ht2, hhq⟩)
        · exact Or.inl hq
        · rcases List.mem_cons.mp hp2 with h2 | h2
          · subst h2
            rw [ht2] at hh
            rw [hhq] at hh
            simp at hh
          · exact Or.inr ⟨p2, h2, ht2, hhq⟩

theorem pasteFold_lengths (prevData : Matrix JsValue) (minR minC : Nat) (a : Point)
    (l : List Point) (acc : Matrix JsValue × List Point)
    (hlen : acc.1.length = prevData.length)
    (hrow : ∀ r0, (matRowGetD r0 acc.1).length = (matRowGetD r0 prevData).length) :
    (l.foldl (pasteStep prevData minR minC a) acc).1.length = prevData.length ∧
    ∀ r0, (matRowGetD r0 (l.foldl (pasteStep prevData minR minC a) acc).1).length =
      (matRowGetD r0 prevData).length := by
  induction l generalizing acc with
  | nil => exact ⟨hlen, hrow⟩
  | cons p l ih =>
    rw [List.foldl_cons]
    by_cases hh : has (pasteTarget minR minC a p).row (pasteTarget minR minC a p).column prevData
    · have hstep : (pasteStep prevData minR minC a acc p).1 =
          set (pasteTarget minR minC a p).row (pasteTarget minR minC a p).column
            (get p.row p.column prevData) acc.1 := by
        rw [pasteStep, if_pos hh]
      have hr : (pasteTarget minR minC a p).row < acc.1.length := by
        rw [hlen]
        exact has_row_lt _ _ _ hh
      have hc : (pasteTarget minR minC a p).column <
          (matRowGetD (pasteTarget minR minC a p).row acc.1).length := by
        rw [hrow]
        exact has_col_lt _ _ _ hh
      refine ih _ ?_ ?_
      · rw [hstep, set_length _ _ _ _ hr, hlen]
      · intro r0
        rw [hstep, set_rowlen _ _ _ _ hr hc r0, hrow r0]
    · have hstep : pasteStep prevData minR minC a acc p = acc := by
        rw [pasteStep, if_neg hh]
      rw [hstep]
      exact ih _ hlen hrow

/-- C1 (amended): paste from a state with an active point and a non-empty
copied set translates each copied source by `active - minCorner(copied)`;
a target is skipped exactly when `Matrix.has` is false there in the
pre-paste data (in particular every out-of-bounds target is skipped, the
matrix size never grows, and no error is raised), every target with `has`
true receives the copied cell, the resulting selection is exactly the set
of translated targets actually written, and afterwards `hasPasted = true`,
`cut = false`, `mode = "view"`. -/
theorem handlePaste_amended (st : StoreState) (a : Point) (hA : st.active = some a)
    (hC : st.copied ≠ []) : PasteSpec st a := by
  have hmin : ∀ p ∈ st.copied,
      psMinBy (fun q => q.row) st.copied ≤ p.row ∧
      psMinBy (fun q => q.column) st.copied ≤ p.column := by
    intro p hp
    exact ⟨psMinBy_le _ _ p hp, psMinBy_le _ _ p hp⟩
  refine ⟨{ st with
      data := (st.copied.foldl (pasteStep st.data (psMinBy (fun q => q.row) st.copied)
        (psMinBy (fun q => q.column) st.copied) a) (st.data, [])).1
      selected := (st.copied.foldl (pasteStep st.data (psMinBy (fun q => q.row) st.copied)
        (psMinBy (fun q => q.column) st.copied) a) (st.data, [])).2
      cut := false
      hasPasted := true
      mode := Mode.view }, ?_, ?_, ?_, ?_, ?_, rfl, rfl, rfl, rfl⟩
  · rw [handlePaste, hA]
  · intro p hp hh
    exact pasteFold_target st.data _ _ a st.copied (st.data, []) p hmin hp hh
  · intro q hq
    exact pasteFold_get_away st.data _ _ a st.copied (st.data, []) q (by
      intro p hp
      by_cases ht : pasteTarget (psMinBy (fun q => q.row) st.copied)
          (psMinBy (fun q => q.column) st.copied) a p = q
      · left
        rw [ht]
        exact hq
      · right
        exact ht)
  · have hl := pasteFold_lengths st.data (psMinBy (fun q => q.row) st.copied)
      (psMinBy (fun q => q.column) st.copied) a st.copied (st.data, []) rfl (fun _ => rfl)
    show getSize _ = getSize st.data
    unfold getSize
    rw [hl.1, hl.2 0]
  · intro q
    have := pasteFold_selected st.data (psMinBy (fun q => q.row) st.copied)
      (psMinBy (fun q => q.column) st.copied) a st.copied (st.data, []) q
    simpa using this

/-- C1 counterexample: in `pasteHoleState` the single translated target is
(0,1), strictly inside the 2×2 size of the matrix, yet the paste skips it
because the stored entry there is a hole: the data is unchanged (the
in-bounds target does not receive the copied cell) and the resulting
selection is empty rather than the set of translated in-bounds points. -/
theorem handlePaste_inbounds_claim_false :
    handlePaste pasteHoleState = some { pasteHoleState with hasPasted := true, mode := Mode.view } ∧
    0 < (getSize pasteHoleState.data).rows ∧ 1 < (getSize pasteHoleState.data).columns ∧
    pasteAnchor pasteHoleState ⟨0, 1⟩ ⟨1, 0⟩ = ⟨0, 1⟩ ∧
    get 0 1 pasteHoleState.data = none ∧
    get 1 0 pasteHoleState.data = some (JsValue.vCell 1 (JsValue.vStr "y")) := by
  decide

/-- C1 witness: the amended statement applied to the spec's own paste
scenario — a fully-populated 2×2 grid with the first row copied and the
active point at (1,0). -/
theorem handlePaste_amended_witness :
    pasteWitnessState.active = some ⟨1, 0⟩ ∧ pasteWitnessState.copied ≠ [] ∧
    PasteSpec pasteWitnessState ⟨1, 0⟩ :=
  ⟨rfl, by decide, handlePaste_amended pasteWitnessState ⟨1, 0⟩ rfl (by decide)⟩

theorem rangeUtil_sign_eq (s e : Int) (h : s ≠ e) :
    rangeUtil (e + (e - s).sign) s = inclusiveSeq s e := by
  rcases lt_or_gt_of_ne h with hlt | hgt
  · have hs : (e - s).sign = 1 := Int.sign_eq_one_iff_pos.mpr (by omega)
    rw [hs]
    unfold rangeUtil inclusiveSeq
    rw [if_pos (by omega), if_pos (by omega), show e + 1 - s = e - s + 1 by ring]
  · have hs : (e - s).sign = -1 := Int.sign_eq_neg_one_iff_neg.mpr (by omega)
    rw [hs]
    unfold rangeUtil inclusiveSeq
    rw [if_neg (by omega), if_neg (by omega), show s - (e + -1) = s - e + 1 by ring]

theorem inclusiveSeq_self (s : Int) : inclusiveSeq s s = [s] := by
  unfold inclusiveSeq
  rw [if_pos le_rfl, show s - s + 1 = 1 by ring, show ((1 : Int)).toNat = 1 from rfl,
    show List.range 1 = [0] from rfl]
  simp

theorem ne_add_sign (s e : Int) (h : s ≠ e) : s ≠ e + (e - s).sign := by
  rcases lt_or_gt_of_ne h with h1 | h1
  · rw [Int.sign_eq_one_iff_pos.mpr (by omega)]
    omega
  · rw [Int.sign_eq_neg_one_iff_neg.mpr (by omega)]
    omega

theorem add_sign_self (s : Int) : s + (s - s).sign = s := by
  rw [show s - s = 0 by ring]
  simp

/-- C9 (amended): for every pair of distinct corner points, in either
orientation (including degenerate single-row or single-column rectangles),
`inclusiveRange` returns exactly the points of the rectangle spanned by
the two corners, enumerated row-major from the start corner and including
both corners; the one exception is coincident corners, where it returns
the empty list instead of the single shared point. -/
theorem inclusiveRange_amended (s e : PtI) (h : s ≠ e) : inclusiveRange e s = rectPoints s e := by
  simp only [inclusiveRange, range, rectPoints]
  by_cases hr : s.row = e.row <;> by_cases hc : s.column = e.column
  · exact absurd (by cases s; cases e; simp_all) h
  · have h1 : e.row + (e.row - s.row).sign = s.row := by
      rw [← hr]
      exact add_sign_self s.row
    have h2 : s.column ≠ e.column + (e.column - s.column).sign := ne_add_sign _ _ hc
    rw [h1]
    simp [h2, rangeUtil_sign_eq _ _ hc, ← hr, inclusiveSeq_self, flatMapL]
  · have h1 : e.column + (e.column - s.column).sign = s.column := by
      rw [← hc]
      exact add_sign_self s.column
    have h2 : s.row ≠ e.row + (e.row - s.row).sign := ne_add_sign _ _ hr
    rw [h1]
    simp [h2, rangeUtil_sign_eq _ _ hr, ← hc, inclusiveSeq_self, flatMapL]
  · have h2c : s.column ≠ e.column + (e.column - s.column).sign := ne_add_sign _ _ hc
    have h2r : s.row ≠ e.row + (e.row - s.row).sign := ne_add_sign _ _ hr
    simp [h2c, h2r, rangeUtil_sign_eq _ _ hc, rangeUtil_sign_eq _ _ hr]

/-- C9 counterexample: coincident corners — `inclusiveRange` of the point
(0,0) with itself is empty, while the rectangle spanned by the two (equal)
corners is the single point, so the end corner is not included. -/
theorem inclusiveRange_coincident_claim_false :
    inclusiveRange ⟨0, 0⟩ ⟨0, 0⟩ = [] ∧ rectPoints ⟨0, 0⟩ ⟨0, 0⟩ = [⟨0, 0⟩] := by
  decide

/-- C9 witness: the amended statement applied at the distinct corners
(0,0) and (1,2). -/
theorem inclusiveRange_amended_witness :
    ((⟨0, 0⟩ : PtI) ≠ ⟨1, 2⟩) ∧ inclusiveRange ⟨1, 2⟩ ⟨0, 0⟩ = rectPoints ⟨0, 0⟩ ⟨1, 2⟩ :=
  ⟨by decide, inclusiveRange_amended ⟨0, 0⟩ ⟨1, 2⟩ (by decide)⟩

/-- C5: `getComputedValue` returns null for an undefined cell; returns the
raw value unchanged for a non-formula cell, independently of the parser
collaborator (so the parser is never consulted); and for a formula cell it
delegates to `parse` on the extracted formula text, returning the error
when non-null and the parse result otherwise. -/
theorem getComputedValue_contract (fp fq : FormulaFn) (c : CellB) :
    getComputedValue none fp = JsValue.vNull ∧
    (isFormulaCell c = false →
      getComputedValue (some c) fp = c.value ∧
      getComputedValue (some c) fp = getComputedValue (some c) fq) ∧
    (isFormulaCell c = true →
      ((fp (extractFormula (cellValueString c))).error = none →
        getComputedValue (some c) fp = (fp (extractFormula (cellValueString c))).result) ∧
      (∀ err, (fp (extractFormula (cellValueString c))).error = some err →
        getComputedValue (some c) fp = JsValue.vStr err)) := by
  refine ⟨rfl, ?_, ?_⟩
  · intro h
    constructor <;> simp [getComputedValue, h]
  · intro h
    constructor
    · intro he
      simp [getComputedValue, h, getFormulaComputedValue, he]
    · intro err he
      simp [getComputedValue, h, getFormulaComputedValue, he]

/-- C5 witness: the contract applied at the spec scenario — the formula
cell `"=TRUE()"` and a parser answering `\x7bresult: true, error: null\x7d`. -/
theorem getComputedValue_contract_witness :
    isFormulaCell exampleFormulaCell = true ∧
    getComputedValue (some exampleFormulaCell) exampleTrueFn = JsValue.vBool true :=
  ⟨by decide,
    ((getComputedValue_contract exampleTrueFn exampleTrueFn exampleFormulaCell).2.2
      (by decide)).1 rfl⟩

/-- C6 (amended): on an update that leaves edit mode, the single commit
record `\x7bprevCell: snapshot, nextCell: cell just before the change\x7d` is
emitted iff the current cell is truthy or undefined, the previous cell is
truthy, and the previous cell differs by reference from the snapshot
(in particular a null cell on either side of the transition suppresses the
commit); an emitted record is paired with the dependent points the
`getBindingsForCell` collaborator yields for the committed cell. -/
theorem commit_emission_amended (prevProps props : AcProps) (st : AcState)
    (g : Option JsValue → List Point) (hPrev : prevProps.mode = Mode.edit)
    (hLeft : props.mode ≠ Mode.edit) : CommitSpec prevProps props st g := by
  constructor
  · by_cases h1 : truthyOrUndef props.cell = true <;>
      by_cases h2 : truthyO prevProps.cell = true <;>
      by_cases h3 : prevProps.cell = st.cellBeforeUpdate <;>
      simp [componentDidUpdate, hPrev, hLeft, h1, h2, h3]
  · simp [commitWithBindings, flatMapL]

/-- C6 counterexample: an edit session ends while the (truthy, object)
cell just before the mode change differs by reference from the snapshot,
but the cell after the transition is null — the claim demands exactly one
commit record, yet the code emits none because of the
`cell || cell === undefined` guard. -/
theorem commit_emission_claim_false :
    (componentDidUpdate ⟨Mode.edit, some (JsValue.vCell 1 (JsValue.vStr "Y"))⟩
      ⟨Mode.view, some JsValue.vNull⟩ ⟨some (JsValue.vCell 0 (JsValue.vStr "X"))⟩).2 = [] ∧
    some (JsValue.vCell 1 (JsValue.vStr "Y")) ≠ some (JsValue.vCell 0 (JsValue.vStr "X")) := by
  decide

/-- C6 witness: the amended statement applied at a concrete session — the
snapshot `\x7bvalue: "X"\x7d`, the previous cell `\x7bvalue: "Y"\x7d`, leaving edit
mode into view. -/
theorem commit_emission_amended_witness :
    (⟨Mode.edit, some (JsValue.vCell 1 (JsValue.vStr "Y"))⟩ : AcProps).mode = Mode.edit ∧
    (⟨Mode.view, some (JsValue.vCell 1 (JsValue.vStr "Y"))⟩ : AcProps).mode ≠ Mode.edit ∧
    CommitSpec ⟨Mode.edit, some (JsValue.vCell 1 (JsValue.vStr "Y"))⟩
      ⟨Mode.view, some (JsValue.vCell 1 (JsValue.vStr "Y"))⟩
      ⟨some (JsValue.vCell 0 (JsValue.vStr "X"))⟩ (fun _ => [⟨0, 0⟩]) :=
  ⟨rfl, by decide,
    commit_emission_amended _ _ _ (fun _ => [⟨0, 0⟩]) rfl (by decide)⟩

/-- C7: after mounting one widget instance and then unmounting it, the
three document-level clipboard listeners are still registered — only the
store subscription is released — so the teardown invariant of the claim
fails on the code. -/
theorem unmount_leaves_document_listeners :
    componentWillUnmountRelease componentDidMountListeners =
      [ListenerTag.copyListener, ListenerTag.cutListener, ListenerTag.pasteListener] ∧
    componentWillUnmountRelease componentDidMountListeners ≠ [] := by
  decide

end Sheet
